import Mathlib

/-!
Verification of the hkclick repository: the click sequencer
(`handleButtonClick` in the Home page component) and the leaderboard
storage engines (`DatabaseStorage` in the drizzle/postgres storage module
and `MongoStorage` in `server/mongoStorage.ts`).

The embedding is shallow: the game state and its transition are
transcribed from the React reducer; each storage backend is modelled as a
pure function over an insertion-ordered list of entries, with timestamps
and generated ids supplied as explicit parameters.
-/

namespace HKClick

/-! ## Click sequencer (client game state machine) -/

/-- The two button identities, `'hare' | 'krishna'` in the source. -/
inductive ButtonType where
  | hare
  | krishna
deriving DecidableEq, Repr

/-- `GameState` from the Home component: score, last clicked button,
expected next button, and the mala counter. -/
structure GameState where
  score : Nat
  lastClicked : Option ButtonType
  expecting : ButtonType
  malaCount : Nat
deriving DecidableEq, Repr

/-- The initial `useState` value:
`{ score: 0, lastClicked: null, expecting: 'hare', malaCount: 0 }`. -/
def initialGameState : GameState :=
  { score := 0, lastClicked := none, expecting := ButtonType.hare, malaCount := 0 }

/-- The state update performed by `handleButtonClick` (the `setGameState`
functional update), transcribed branch by branch from the source. -/
def handleButtonClick (prev : GameState) (buttonType : ButtonType) : GameState :=
  if buttonType = prev.expecting then
    -- Correct button clicked
    if buttonType = ButtonType.krishna ∧ prev.lastClicked = some ButtonType.hare then
      -- Complete pair - increase score
      let newScore := prev.score + 1
      let newMala :=
        if newScore > 0 ∧ newScore % 108 = 0 then prev.malaCount + 1 else prev.malaCount
      { score := newScore
        lastClicked := some buttonType
        expecting := if buttonType = ButtonType.hare then ButtonType.krishna else ButtonType.hare
        malaCount := newMala }
    else
      { prev with
        lastClicked := some buttonType
        expecting := if buttonType = ButtonType.hare then ButtonType.krishna else ButtonType.hare }
  else
    -- Wrong button clicked - no score increase, but update expectation
    { prev with
      lastClicked := some buttonType
      expecting := if buttonType = ButtonType.hare then ButtonType.krishna else ButtonType.hare }

/-- Feeding a finite sequence of clicks to the sequencer. -/
def runClicks (s : GameState) (clicks : List ButtonType) : GameState :=
  clicks.foldl handleButtonClick s

/-- The opposite symbol (`'hare' ↦ 'krishna'`, `'krishna' ↦ 'hare'`). -/
def opposite : ButtonType → ButtonType
  | ButtonType.hare => ButtonType.krishna
  | ButtonType.krishna => ButtonType.hare

/-- Specification-side count: the number of clicks equal to B (krishna)
whose immediately preceding click (the `last` accumulator) is A (hare);
each such A is consumed, being replaced by the B as the new predecessor. -/
def pairCount : Option ButtonType → List ButtonType → Nat
  | last, c :: rest =>
      (if c = ButtonType.krishna ∧ last = some ButtonType.hare then 1 else 0) +
        pairCount (some c) rest
  | _, [] => 0

/-- States whose `expecting` field is consistent with `lastClicked`
(true of the initial state and preserved by every click). -/
def GoodState (s : GameState) : Prop :=
  match s.lastClicked with
  | none => True
  | some b => s.expecting = opposite b

theorem handleButtonClick_lastClicked (s : GameState) (c : ButtonType) :
    (handleButtonClick s c).lastClicked = some c := by
  cases c <;> simp [handleButtonClick] <;> split <;> simp_all <;> split <;> simp_all

theorem handleButtonClick_expecting (s : GameState) (c : ButtonType) :
    (handleButtonClick s c).expecting = opposite c := by
  cases c <;> simp [handleButtonClick, opposite] <;> split <;> simp_all <;> split <;> simp_all

theorem goodState_handleButtonClick (s : GameState) (c : ButtonType) :
    GoodState (handleButtonClick s c) := by
  have h1 := handleButtonClick_lastClicked s c
  have h2 := handleButtonClick_expecting s c
  unfold GoodState
  rw [h1, h2]

theorem handleButtonClick_score (s : GameState) (c : ButtonType) (hs : GoodState s) :
    (handleButtonClick s c).score =
      s.score + (if c = ButtonType.krishna ∧ s.lastClicked = some ButtonType.hare then 1 else 0) := by
  unfold GoodState at hs
  unfold handleButtonClick
  cases hlc : s.lastClicked with
  | none =>
      simp only [hlc]
      split <;> [skip; simp]
      split <;> simp_all
  | some b =>
      rw [hlc] at hs
      cases b <;> cases c <;> simp_all [opposite] <;> split <;> simp_all

theorem runClicks_score (clicks : List ButtonType) :
    ∀ s : GameState, GoodState s →
      (runClicks s clicks).score = s.score + pairCount s.lastClicked clicks := by
  induction clicks with
  | nil => intro s _; simp [runClicks, pairCount]
  | cons c rest ih =>
      intro s hs
      have hstep := handleButtonClick_score s c hs
      have hgood := goodState_handleButtonClick s c
      have hlast := handleButtonClick_lastClicked s c
      have := ih (handleButtonClick s c) hgood
      simp only [runClicks, List.foldl_cons] at *
      rw [this, hlast, hstep, pairCount]
      omega

theorem pairCount_replicate_hare (n : Nat) :
    ∀ last, pairCount last (List.replicate n ButtonType.hare) = 0 := by
  induction n with
  | zero => intro last; simp [pairCount]
  | succ n ih =>
      intro last
      simp only [List.replicate_succ, pairCount]
      rw [ih]
      simp

theorem pairCount_first_not_hare (cs : List ButtonType) (l1 l2 : Option ButtonType)
    (h1 : l1 ≠ some ButtonType.hare) (h2 : l2 ≠ some ButtonType.hare) :
    pairCount l1 cs = pairCount l2 cs := by
  cases cs with
  | nil => rfl
  | cons c rest => simp [pairCount, h1, h2]

/-- **C1.** From the initial state, the score after any finite click
sequence equals the number of B clicks whose immediately preceding
accepted click is an unconsumed A (`pairCount`); clicking only A yields
score 0; a leading B contributes no increment; the sequence A, A, B
scores 1; and every click, right or wrong, sets `expecting` to the
opposite of the clicked symbol. -/
theorem clickSequencer_score_spec :
    (∀ clicks : List ButtonType,
        (runClicks initialGameState clicks).score = pairCount none clicks) ∧
    (∀ n : Nat,
        (runClicks initialGameState (List.replicate n ButtonType.hare)).score = 0) ∧
    (∀ clicks : List ButtonType,
        (runClicks initialGameState (ButtonType.krishna :: clicks)).score =
          (runClicks initialGameState clicks).score) ∧
    (runClicks initialGameState
        [ButtonType.hare, ButtonType.hare, ButtonType.krishna]).score = 1 ∧
    (∀ (s : GameState) (c : ButtonType),
        (handleButtonClick s c).expecting = opposite c) := by
  have hinit : GoodState initialGameState := by trivial
  have hmain : ∀ clicks, (runClicks initialGameState clicks).score = pairCount none clicks := by
    intro clicks
    have := runClicks_score clicks initialGameState hinit
    simpa [initialGameState] using this
  refine ⟨hmain, ?_, ?_, by decide, handleButtonClick_expecting⟩
  · intro n
    rw [hmain]
    exact pairCount_replicate_hare n none
  · intro clicks
    rw [hmain, hmain]
    simp only [pairCount]
    rw [pairCount_first_not_hare clicks (some ButtonType.krishna) none (by simp) (by simp)]
    simp

theorem malaInv_handleButtonClick (s : GameState) (c : ButtonType)
    (h : s.malaCount = s.score / 108) :
    (handleButtonClick s c).malaCount = (handleButtonClick s c).score / 108 := by
  unfold handleButtonClick
  split
  · split
    · simp only
      split <;> omega
    · simpa using h
  · simpa using h

/-- **C5.** After every click sequence from the initial state the mala
counter equals `score / 108`, even though the code maintains it
incrementally (adding 1 exactly when the new score is a positive
multiple of 108). -/
theorem malaCount_eq_score_div_108 :
    ∀ clicks : List ButtonType,
      (runClicks initialGameState clicks).malaCount =
        (runClicks initialGameState clicks).score / 108 := by
  have gen : ∀ (clicks : List ButtonType) (s : GameState),
      s.malaCount = s.score / 108 →
      (runClicks s clicks).malaCount = (runClicks s clicks).score / 108 := by
    intro clicks
    induction clicks with
    | nil => intro s h; simpa [runClicks] using h
    | cons c rest ih =>
        intro s h
        simp only [runClicks, List.foldl_cons] at *
        exact ih (handleButtonClick s c) (malaInv_handleButtonClick s c h)
  intro clicks
  exact gen clicks initialGameState (by simp [initialGameState])

/-! ## Leaderboard storage (DatabaseStorage, drizzle/postgres backend)

The `leaderboard_entries` table is modelled as an insertion-ordered list.
Generated ids and `new Date()` timestamps are supplied as explicit
parameters. The `country` column is nullable (`varchar(2)`, no
`notNull`), hence `Option String`. -/

/-- A row of `leaderboard_entries` (shared/schema.ts). -/
structure LeaderboardEntry where
  id : Nat
  playerName : String
  score : Nat
  country : Option String
  createdAt : Nat
  updatedAt : Nat
deriving DecidableEq, Repr

/-- The payload accepted by `updateScoreSchema`
(`playerName`, `score`, optional `country`). -/
structure UpdateScore where
  playerName : String
  score : Nat
  country : Option String
deriving DecidableEq, Repr

/-- The constraints `updateScoreSchema` imposes: `playerName` 1–50
characters and `country`, when present, exactly 2 characters. -/
def UpdateScore.valid (d : UpdateScore) : Prop :=
  1 ≤ d.playerName.length ∧ d.playerName.length ≤ 50 ∧
    ∀ c, d.country = some c → c.length = 2

/-- JavaScript truthiness of a string: every string except `""`. -/
def jsTruthy (s : String) : Bool := s ≠ ""

/-- `a || b` where `a` is an optional string field and `b` a string
(e.g. `data.country || "XX"`). -/
def jsOrStr (a : Option String) (b : String) : String :=
  match a with
  | some s => if jsTruthy s then s else b
  | none => b

/-- `a || b` where `a` is an optional string field and `b` a nullable
column (e.g. `data.country || existingPlayer.country`). -/
def jsOrOpt (a : Option String) (b : Option String) : Option String :=
  match a with
  | some s => if jsTruthy s then some s else b
  | none => b

/-- The `.set({ score, country, updatedAt })` applied to the found row:
only `score`, `country` and `updatedAt` are written. -/
def applyScoreUpdate (ex : LeaderboardEntry) (data : UpdateScore) (now : Nat) :
    LeaderboardEntry :=
  { ex with score := data.score, country := jsOrOpt data.country ex.country, updatedAt := now }

/-- The row inserted for a first-time player:
`{ playerName, score, country: data.country || "XX" }` with generated id
and `defaultNow()` timestamps. -/
def newPlayerEntry (data : UpdateScore) (now freshId : Nat) : LeaderboardEntry :=
  { id := freshId, playerName := data.playerName, score := data.score,
    country := some (jsOrStr data.country "XX"), createdAt := now, updatedAt := now }

/-- `DatabaseStorage.updatePlayerScore`: find the entry by `playerName`;
if found and the submitted score is strictly higher, update score,
country (`data.country || existing.country`) and `updatedAt` in the row
with the matching id; if found and not higher, return the existing row
unchanged; otherwise insert a fresh row with
`country: data.country || "XX"`. Returns the resulting entry and store. -/
def updatePlayerScore (store : List LeaderboardEntry) (data : UpdateScore)
    (now freshId : Nat) : LeaderboardEntry × List LeaderboardEntry :=
  match store.find? (fun e => e.playerName == data.playerName) with
  | some existingPlayer =>
      if data.score > existingPlayer.score then
        let updatedPlayer := applyScoreUpdate existingPlayer data now
        (updatedPlayer,
          store.map (fun e => if e.id = existingPlayer.id then updatedPlayer else e))
      else
        (existingPlayer, store)
  | none =>
      let newPlayer := newPlayerEntry data now freshId
      (newPlayer, store ++ [newPlayer])

/-- The score currently stored for a player, if any (the first matching
row in insertion order, as `select … limit 1` returns). -/
def getPlayerScore (store : List LeaderboardEntry) (name : String) : Option Nat :=
  (store.find? (fun e => e.playerName == name)).map (fun e => e.score)

/-- Running a list of submissions sequentially, each with its own
timestamp and fresh id. -/
def submitSeq (store : List LeaderboardEntry) :
    List (UpdateScore × Nat × Nat) → List LeaderboardEntry
  | [] => store
  | (d, now, fid) :: rest => submitSeq (updatePlayerScore store d now fid).2 rest

theorem getPlayerScore_updatePlayerScore (store : List LeaderboardEntry)
    (data : UpdateScore) (now freshId : Nat) :
    getPlayerScore ((updatePlayerScore store data now freshId).2) data.playerName =
      some (match getPlayerScore store data.playerName with
            | none => data.score
            | some s => max s data.score) := by
  unfold updatePlayerScore getPlayerScore
  cases hfind : store.find? (fun e => e.playerName == data.playerName) with
  | none =>
      simp only [hfind, Option.map_none]
      rw [List.find?_append, hfind]
      simp [newPlayerEntry]
  | some ex =>
      have hex' := List.find?_some hfind
      have hex : ex.playerName = data.playerName := by
        simpa using hex'
      simp only [hfind]
      split
      · -- update branch: the first name match in the mapped store scores data.score
        rename_i hgt
        simp only [Option.map_some]
        have key : ∀ l : List LeaderboardEntry,
            l.find? (fun e => e.playerName == data.playerName) = some ex →
            ((l.map (fun e => if e.id = ex.id then applyScoreUpdate ex data now else e)).find?
              (fun e => e.playerName == data.playerName)).map (fun e => e.score) =
              some data.score := by
          intro l
          induction l with
          | nil => intro h; simp at h
          | cons a rest ih =>
              intro h
              rw [List.find?_cons] at h
              by_cases ha : (a.playerName == data.playerName) = true
              · simp only [ha] at h
                injection h with h
                subst h
                simp [List.find?_cons, hex, applyScoreUpdate]
              · simp only [ha] at h
                simp only [List.map_cons]
                by_cases hid : a.id = ex.id
                · simp [List.find?_cons, hid, hex, applyScoreUpdate]
                · simp only [List.find?_cons, if_neg hid, ha]
                  exact ih h
        have := key store hfind
        simp only [this, Option.map_some']
        congr 1
        rw [Nat.max_def]
        split <;> omega
      · -- dominated branch: store unchanged
        rename_i hle
        simp only [hfind, Option.map_some']
        congr 1
        rw [Nat.max_def]
        split <;> omega

theorem getPlayerScore_submitSeq (subs : List (UpdateScore × Nat × Nat)) :
    ∀ (store : List LeaderboardEntry) (name : String) (m : Nat),
      (∀ x ∈ subs, x.1.playerName = name) →
      getPlayerScore store name = some m →
      getPlayerScore (submitSeq store subs) name =
        some ((subs.map (fun x => x.1.score)).foldl max m) := by
  induction subs with
  | nil => intro store name m _ h; simpa [submitSeq] using h
  | cons x rest ih =>
      intro store name m hall h
      obtain ⟨d, now, fid⟩ := x
      have hn : d.playerName = name := hall (d, now, fid) (List.mem_cons_self _ _)
      have hstep := getPlayerScore_updatePlayerScore store d now fid
      rw [hn] at hstep
      rw [h] at hstep
      simp only [submitSeq]
      have := ih (updatePlayerScore store d now fid).2 name (max m d.score)
        (fun y hy => hall y (List.mem_cons_of_mem _ hy)) hstep
      simpa using this

/-- **C2.** Starting from a store with no entry for `name`, any nonempty
sequence of sequential submissions for `name` leaves exactly the maximum
submitted score stored; moreover a single update step never decreases an
existing stored score (monotonicity). -/
theorem updatePlayerScore_max_spec (store : List LeaderboardEntry) (name : String)
    (subs : List (UpdateScore × Nat × Nat))
    (hempty : getPlayerScore store name = none)
    (hne : subs ≠ [])
    (hall : ∀ x ∈ subs, x.1.playerName = name) :
    getPlayerScore (submitSeq store subs) name =
      some ((subs.map (fun x => x.1.score)).foldl max 0) ∧
    (∀ (st : List LeaderboardEntry) (d : UpdateScore) (now fid s : Nat),
        getPlayerScore st d.playerName = some s →
        ∃ s', getPlayerScore ((updatePlayerScore st d now fid).2) d.playerName = some s' ∧
          s ≤ s') := by
  constructor
  · cases subs with
    | nil => exact absurd rfl hne
    | cons x rest =>
        obtain ⟨d, now, fid⟩ := x
        have hn : d.playerName = name := hall (d, now, fid) (List.mem_cons_self _ _)
        have hstep := getPlayerScore_updatePlayerScore store d now fid
        rw [hn, hempty] at hstep
        simp only [submitSeq]
        have := getPlayerScore_submitSeq rest (updatePlayerScore store d now fid).2 name
          d.score (fun y hy => hall y (List.mem_cons_of_mem _ hy)) hstep
        rw [this]
        simp [Nat.max_comm]
  · intro st d now fid s h
    have hstep := getPlayerScore_updatePlayerScore st d now fid
    rw [h] at hstep
    exact ⟨max s d.score, hstep, Nat.le_max_left _ _⟩

/-- Closed instance of `updatePlayerScore_max_spec`: submitting 10, 5, 25
for one player into an empty store stores 25. -/
theorem updatePlayerScore_max_spec_witness :
    getPlayerScore
        (submitSeq []
          [(⟨"alice", 10, some "US"⟩, 0, 1), (⟨"alice", 5, some "US"⟩, 1, 2),
            (⟨"alice", 25, some "CA"⟩, 2, 3)]) "alice" = some 25 := by
  have h := updatePlayerScore_max_spec [] "alice"
    [(⟨"alice", 10, some "US"⟩, 0, 1), (⟨"alice", 5, some "US"⟩, 1, 2),
      (⟨"alice", 25, some "CA"⟩, 2, 3)]
    (by rfl) (by simp) (by decide)
  simpa using h.1

theorem updatePlayerScore_dominated (store : List LeaderboardEntry) (data : UpdateScore)
    (now freshId : Nat) (ex : LeaderboardEntry)
    (hfind : store.find? (fun e => e.playerName == data.playerName) = some ex)
    (hle : data.score ≤ ex.score) :
    updatePlayerScore store data now freshId = (ex, store) := by
  unfold updatePlayerScore
  rw [hfind]
  simp only
  split
  · omega
  · rfl

/-- **C3.** A dominated submission (same player, submitted score at most
the stored one) returns the existing entry and leaves the store
untouched, raising no error; consequently submitting the same
`(playerName, score)` twice leaves the store unchanged after the first
application. -/
theorem dominatedSubmission_noop_spec (store : List LeaderboardEntry) (data : UpdateScore)
    (now freshId : Nat) :
    (∀ ex, store.find? (fun e => e.playerName == data.playerName) = some ex →
        data.score ≤ ex.score →
        updatePlayerScore store data now freshId = (ex, store)) ∧
    (∀ now2 freshId2,
        (updatePlayerScore (updatePlayerScore store data now freshId).2 data now2 freshId2).2 =
          (updatePlayerScore store data now freshId).2) := by
  constructor
  · intro ex hfind hle
    exact updatePlayerScore_dominated store data now freshId ex hfind hle
  · intro now2 freshId2
    have hscore := getPlayerScore_updatePlayerScore store data now freshId
    unfold getPlayerScore at hscore
    cases hfind2 : (updatePlayerScore store data now freshId).2.find?
        (fun e => e.playerName == data.playerName) with
    | none => simp [hfind2] at hscore
    | some e2 =>
        rw [hfind2] at hscore
        simp only [Option.map_some'] at hscore
        injection hscore with hscore
        have hle2 : data.score ≤ e2.score := by
          rw [hscore]
          cases store.find? (fun e => e.playerName == data.playerName) <;> simp <;> omega
        rw [updatePlayerScore_dominated _ data now2 freshId2 e2 hfind2 hle2]

/-- Closed instance of `dominatedSubmission_noop_spec`: submitting
`("alice", 5)` against a stored score of 10 returns the stored entry and
leaves the store unchanged. -/
theorem dominatedSubmission_noop_spec_witness :
    updatePlayerScore [⟨1, "alice", 10, some "US", 0, 0⟩] ⟨"alice", 5, some "US"⟩ 7 2 =
      (⟨1, "alice", 10, some "US", 0, 0⟩, [⟨1, "alice", 10, some "US", 0, 0⟩]) :=
  (dominatedSubmission_noop_spec [⟨1, "alice", 10, some "US", 0, 0⟩]
      ⟨"alice", 5, some "US"⟩ 7 2).1
    ⟨1, "alice", 10, some "US", 0, 0⟩ (by rfl) (by decide)

/-! ## Aggregate and leaderboard queries -/

/-- `a || b` on numbers (`result[0]?.total || 0`): `0` is falsy. -/
def jsOrNat (a : Option Nat) (b : Nat) : Nat :=
  match a with
  | some n => if n ≠ 0 then n else b
  | none => b

/-- `sum(score)` as SQL computes it: `NULL` (none) over an empty table,
otherwise the sum. -/
def sqlSumScores (store : List LeaderboardEntry) : Option Nat :=
  match store with
  | [] => none
  | _ => some ((store.map (fun e => e.score)).foldr (fun a b => a + b) 0)

/-- `DatabaseStorage.getTotalGlobalScore`: `result[0]?.total || 0`. -/
def getTotalGlobalScore (store : List LeaderboardEntry) : Nat :=
  jsOrNat (sqlSumScores store) 0

/-- **C6.** `getTotalGlobalScore` returns the sum of the `score` field
over all entries, and exactly 0 on an empty store. -/
theorem getTotalGlobalScore_spec :
    (∀ store : List LeaderboardEntry,
        getTotalGlobalScore store = (store.map (fun e => e.score)).sum) ∧
    getTotalGlobalScore [] = 0 := by
  refine ⟨?_, rfl⟩
  intro store
  cases store with
  | nil => rfl
  | cons e rest =>
      unfold getTotalGlobalScore sqlSumScores jsOrNat
      simp only [List.sum_eq_foldr]
      split
      · rfl
      · omega

/-- The rows `orderBy(desc(score))` / `sort({score: -1})` may return:
any permutation of the input that is ordered by descending score. The
queries supply no secondary sort key, so the ordering of equal scores is
left entirely to the database. -/
def IsScoreDescOrdering (store result : List LeaderboardEntry) : Prop :=
  result.Perm store ∧ result.Pairwise (fun a b => b.score ≤ a.score)

/-- The admissible results of `getGlobalLeaderboard` (both backends):
some descending-score ordering of the table, truncated to `limit`
(default 100). -/
def IsGlobalLeaderboardResult (store res : List LeaderboardEntry)
    (limit : Nat := 100) : Prop :=
  ∃ sorted, IsScoreDescOrdering store sorted ∧ res = sorted.take limit

/-- The admissible results of `getCountryLeaderboard` (both backends):
some descending-score ordering of the rows whose `country` equals the
given country, truncated to `limit` (default 50). -/
def IsCountryLeaderboardResult (store : List LeaderboardEntry) (country : String)
    (res : List LeaderboardEntry) (limit : Nat := 50) : Prop :=
  ∃ sorted,
    IsScoreDescOrdering (store.filter (fun e => e.country == some country)) sorted ∧
      res = sorted.take limit

/-- **C7 counterexample.** The claimed insertion-order stability for
equal scores is not guaranteed by the code: with two equally scored
entries inserted in order a, b, the reversed list is an admissible result
of the global leaderboard query (it is a descending-score ordering of the
store), and in it a does not precede b. -/
theorem leaderboard_stability_counterexample :
    IsGlobalLeaderboardResult
      [⟨1, "a", 5, some "US", 0, 0⟩, ⟨2, "b", 5, some "CA", 0, 0⟩]
      [⟨2, "b", 5, some "CA", 0, 0⟩, ⟨1, "a", 5, some "US", 0, 0⟩] 100 ∧
    ¬ ([(⟨1, "a", 5, some "US", 0, 0⟩ : LeaderboardEntry), ⟨2, "b", 5, some "CA", 0, 0⟩].Sublist
        [⟨2, "b", 5, some "CA", 0, 0⟩, ⟨1, "a", 5, some "US", 0, 0⟩]) := by
  refine ⟨⟨[⟨2, "b", 5, some "CA", 0, 0⟩, ⟨1, "a", 5, some "US", 0, 0⟩], ⟨?_, ?_⟩, rfl⟩, ?_⟩
  · decide
  · decide
  · decide

/-- **C7 (amended).** Every admissible result of `getGlobalLeaderboard`
has at most `limit` entries (default 100), is sorted by descending score,
and draws all its entries from the store; every admissible result of
`getCountryLeaderboard` has at most `limit` entries (default 50), is
sorted by descending score, and contains only store entries whose
country equals the given one. Tie order among equal scores is not
guaranteed. -/
theorem leaderboard_query_spec (store res : List LeaderboardEntry) (country : String)
    (limit : Nat) :
    (IsGlobalLeaderboardResult store res limit →
        res.length ≤ limit ∧
        res.Pairwise (fun a b => b.score ≤ a.score) ∧
        ∀ e ∈ res, e ∈ store) ∧
    (IsCountryLeaderboardResult store country res limit →
        res.length ≤ limit ∧
        res.Pairwise (fun a b => b.score ≤ a.score) ∧
        ∀ e ∈ res, e ∈ store ∧ e.country = some country) ∧
    (IsGlobalLeaderboardResult store res ↔ IsGlobalLeaderboardResult store res 100) ∧
    (IsCountryLeaderboardResult store country res ↔
      IsCountryLeaderboardResult store country res 50) := by
  refine ⟨?_, ?_, Iff.rfl, Iff.rfl⟩
  · rintro ⟨sorted, ⟨hperm, hpair⟩, rfl⟩
    refine ⟨List.length_take_le _ _, ?_, ?_⟩
    · exact List.Pairwise.sublist (List.take_sublist _ _) hpair
    · intro e he
      have h1 : e ∈ sorted := List.mem_of_mem_take he
      exact hperm.mem_iff.mp h1
  · rintro ⟨sorted, ⟨hperm, hpair⟩, rfl⟩
    refine ⟨List.length_take_le _ _, ?_, ?_⟩
    · exact List.Pairwise.sublist (List.take_sublist _ _) hpair
    · intro e he
      have h1 : e ∈ sorted := List.mem_of_mem_take he
      have h2 : e ∈ store.filter (fun e => e.country == some country) :=
        hperm.mem_iff.mp h1
      have h3 := List.of_mem_filter h2
      exact ⟨List.mem_of_mem_filter h2, by simpa using h3⟩

/-- Closed instance of `leaderboard_query_spec`: a concrete admissible
global result of a two-entry store is at most 100 long, sorted
descending, and drawn from the store; a concrete admissible country
result contains only `"US"` entries. -/
theorem leaderboard_query_spec_witness :
    (([⟨2, "b", 9, some "CA", 0, 0⟩, ⟨1, "a", 5, some "US", 0, 0⟩] :
        List LeaderboardEntry).length ≤ 100 ∧
      ([(⟨2, "b", 9, some "CA", 0, 0⟩ : LeaderboardEntry), ⟨1, "a", 5, some "US", 0, 0⟩].Pairwise
        (fun a b => b.score ≤ a.score))) ∧
    ((⟨1, "a", 5, some "US", 0, 0⟩ : LeaderboardEntry) ∈
        ([⟨1, "a", 5, some "US", 0, 0⟩, ⟨2, "b", 9, some "CA", 0, 0⟩] :
          List LeaderboardEntry) ∧
      (⟨1, "a", 5, some "US", 0, 0⟩ : LeaderboardEntry).country = some "US") := by
  constructor
  · have h := (leaderboard_query_spec
        [⟨1, "a", 5, some "US", 0, 0⟩, ⟨2, "b", 9, some "CA", 0, 0⟩]
        [⟨2, "b", 9, some "CA", 0, 0⟩, ⟨1, "a", 5, some "US", 0, 0⟩] "US" 100).1
      ⟨[⟨2, "b", 9, some "CA", 0, 0⟩, ⟨1, "a", 5, some "US", 0, 0⟩],
        ⟨by decide, by decide⟩, rfl⟩
    exact ⟨h.1, h.2.1⟩
  · have h := (leaderboard_query_spec
        [⟨1, "a", 5, some "US", 0, 0⟩, ⟨2, "b", 9, some "CA", 0, 0⟩]
        [⟨1, "a", 5, some "US", 0, 0⟩] "US" 50).2.1
      ⟨[⟨1, "a", 5, some "US", 0, 0⟩], ⟨by decide, by decide⟩, rfl⟩
    exact h.2.2 ⟨1, "a", 5, some "US", 0, 0⟩ (by decide)

/-! ## Country handling and frame conditions of `updatePlayerScore` -/

theorem jsTruthy_of_length_two (c : String) (h : c.length = 2) : jsTruthy c = true := by
  simp only [jsTruthy, ne_eq, decide_eq_true_eq]
  intro hc
  rw [hc] at h
  simp at h

/-- **C8.** Country handling of `updatePlayerScore` under the schema
constraints: with no existing entry, a new entry is created carrying the
submitted score and the submitted country, defaulting to the sentinel
`"XX"` when country is absent; with an existing entry and a strictly
higher submitted score, the stored country becomes the newly supplied
country if one was supplied, else the previous country is retained, and
`updatedAt` is refreshed. -/
theorem updatePlayerScore_country_spec (store : List LeaderboardEntry) (data : UpdateScore)
    (now freshId : Nat) (hv : data.valid) :
    (store.find? (fun e => e.playerName == data.playerName) = none →
        (updatePlayerScore store data now freshId).1 =
          { id := freshId, playerName := data.playerName, score := data.score,
            country := some (data.country.getD "XX"), createdAt := now, updatedAt := now } ∧
        (updatePlayerScore store data now freshId).2 =
          store ++ [(updatePlayerScore store data now freshId).1]) ∧
    (∀ ex, store.find? (fun e => e.playerName == data.playerName) = some ex →
        data.score > ex.score →
        (updatePlayerScore store data now freshId).1.country =
          (match data.country with
           | some c => some c
           | none => ex.country) ∧
        (updatePlayerScore store data now freshId).1.score = data.score ∧
        (updatePlayerScore store data now freshId).1.updatedAt = now) := by
  obtain ⟨-, -, hc⟩ := hv
  constructor
  · intro hfind
    unfold updatePlayerScore
    rw [hfind]
    simp only [newPlayerEntry]
    constructor
    · cases hcase : data.country with
      | none => simp [jsOrStr]
      | some c =>
          have := jsTruthy_of_length_two c (hc c hcase)
          simp [jsOrStr, this]
    · trivial
  · intro ex hfind hgt
    unfold updatePlayerScore
    rw [hfind]
    simp only [hgt, if_pos, applyScoreUpdate]
    refine ⟨?_, by trivial, by trivial⟩
    cases hcase : data.country with
    | none => simp [jsOrOpt]
    | some c =>
        have := jsTruthy_of_length_two c (hc c hcase)
        simp [jsOrOpt, this]

/-- Closed instance of `updatePlayerScore_country_spec`: a first
submission without a country gets the sentinel `"XX"`; a higher-scoring
resubmission with country `"CA"` replaces the stored country. -/
theorem updatePlayerScore_country_spec_witness :
    (updatePlayerScore [] ⟨"bob", 7, none⟩ 3 1).1.country = some "XX" ∧
    (updatePlayerScore [⟨1, "bob", 7, some "XX", 3, 3⟩] ⟨"bob", 9, some "CA"⟩ 4 2).1.country =
      some "CA" := by
  constructor
  · have h := (updatePlayerScore_country_spec [] ⟨"bob", 7, none⟩ 3 1
      ⟨by decide, by decide, by intro c hc; cases hc⟩).1 rfl
    rw [h.1]
    exact rfl
  · have h := (updatePlayerScore_country_spec [⟨1, "bob", 7, some "XX", 3, 3⟩]
      ⟨"bob", 9, some "CA"⟩ 4 2
      ⟨by decide, by decide, by intro c hc; cases hc; decide⟩).2
      ⟨1, "bob", 7, some "XX", 3, 3⟩ rfl (by decide)
    rw [h.1]

/-- **C10.** When `updatePlayerScore` updates an existing entry with a
strictly higher score, the returned entry keeps the old `id`,
`playerName` and `createdAt` (only score, country and `updatedAt` are
written), the store keeps its length, every entry whose id differs from
the updated one is untouched, and the entry at the updated id's position
becomes exactly the returned entry. -/
theorem updatePlayerScore_frame_spec (store : List LeaderboardEntry) (data : UpdateScore)
    (now freshId : Nat) (ex : LeaderboardEntry)
    (hfind : store.find? (fun e => e.playerName == data.playerName) = some ex)
    (hgt : data.score > ex.score) :
    (updatePlayerScore store data now freshId).1.id = ex.id ∧
    (updatePlayerScore store data now freshId).1.playerName = ex.playerName ∧
    (updatePlayerScore store data now freshId).1.createdAt = ex.createdAt ∧
    (updatePlayerScore store data now freshId).2.length = store.length ∧
    (∀ i (h : i < store.length), store[i].id ≠ ex.id →
        (updatePlayerScore store data now freshId).2[i]? = some store[i]) ∧
    (∀ i (h : i < store.length), store[i].id = ex.id →
        (updatePlayerScore store data now freshId).2[i]? =
          some (updatePlayerScore store data now freshId).1) := by
  unfold updatePlayerScore
  rw [hfind]
  simp only [hgt, if_pos, applyScoreUpdate]
  refine ⟨by trivial, by trivial, by trivial, by simp, ?_, ?_⟩
  · intro i h hid
    rw [List.getElem?_map]
    rw [List.getElem?_eq_getElem h]
    simp [hid]
  · intro i h hid
    rw [List.getElem?_map]
    rw [List.getElem?_eq_getElem h]
    simp [hid]

/-- Closed instance of `updatePlayerScore_frame_spec` on a two-entry
store: the untouched entry stays in place and the updated one keeps its
identity fields. -/
theorem updatePlayerScore_frame_spec_witness :
    (updatePlayerScore [⟨1, "a", 5, some "XX", 0, 0⟩, ⟨2, "b", 9, some "US", 0, 0⟩]
        ⟨"a", 10, none⟩ 5 9).1.createdAt = 0 ∧
    (updatePlayerScore [⟨1, "a", 5, some "XX", 0, 0⟩, ⟨2, "b", 9, some "US", 0, 0⟩]
        ⟨"a", 10, none⟩ 5 9).2[1]? = some ⟨2, "b", 9, some "US", 0, 0⟩ := by
  have h := updatePlayerScore_frame_spec
    [⟨1, "a", 5, some "XX", 0, 0⟩, ⟨2, "b", 9, some "US", 0, 0⟩]
    ⟨"a", 10, none⟩ 5 9 ⟨1, "a", 5, some "XX", 0, 0⟩ rfl (by decide)
  exact ⟨h.2.2.1, h.2.2.2.2.1 1 (by decide) (by decide)⟩

/-! ## MongoStorage (server/mongoStorage.ts)

The mongo collection document always stores `country` as a plain string
(inserts write `data.country || 'XX'`), and `toLeaderboardEntry` maps a
falsy stored country to `null`. -/

/-- A document of the mongo leaderboard collection
(`MongoLeaderboardEntry` plus its `_id`). -/
structure MongoLeaderboardDoc where
  id : Nat
  playerName : String
  score : Nat
  country : String
  createdAt : Nat
  updatedAt : Nat
deriving DecidableEq, Repr

/-- `toLeaderboardEntry`: converts a document to the API entry shape,
with `country: doc.country || null`. -/
def toLeaderboardEntry (doc : MongoLeaderboardDoc) : LeaderboardEntry :=
  { id := doc.id
    playerName := doc.playerName
    score := doc.score
    country := if jsTruthy doc.country then some doc.country else none
    createdAt := doc.createdAt
    updatedAt := doc.updatedAt }

/-- The `$set { score, country, updatedAt }` of
`MongoStorage.updatePlayerScore`. -/
def mongoApplyScoreUpdate (doc : MongoLeaderboardDoc) (data : UpdateScore) (now : Nat) :
    MongoLeaderboardDoc :=
  { doc with score := data.score, country := jsOrStr data.country doc.country, updatedAt := now }

/-- The document inserted for a first-time player by
`MongoStorage.updatePlayerScore`. -/
def mongoNewPlayerDoc (data : UpdateScore) (now freshId : Nat) : MongoLeaderboardDoc :=
  { id := freshId, playerName := data.playerName, score := data.score,
    country := jsOrStr data.country "XX", createdAt := now, updatedAt := now }

/-- `MongoStorage.updatePlayerScore`: `findOne` by `playerName`; if found
and the submitted score is strictly higher, `updateOne` sets score,
country (`data.country || existingPlayer.country`) and `updatedAt` on the
document with that `_id`; if found and not higher, return the existing
document; else `insertOne` a new document with
`country: data.country || 'XX'`. The returned value goes through
`toLeaderboardEntry`. -/
def mongoUpdatePlayerScore (store : List MongoLeaderboardDoc) (data : UpdateScore)
    (now freshId : Nat) : LeaderboardEntry × List MongoLeaderboardDoc :=
  match store.find? (fun d => d.playerName == data.playerName) with
  | some existingPlayer =>
      if data.score > existingPlayer.score then
        let updatedDoc := mongoApplyScoreUpdate existingPlayer data now
        (toLeaderboardEntry updatedDoc,
          store.map (fun d => if d.id = existingPlayer.id then updatedDoc else d))
      else
        (toLeaderboardEntry existingPlayer, store)
  | none =>
      let newDoc := mongoNewPlayerDoc data now freshId
      (toLeaderboardEntry newDoc, store ++ [newDoc])

/-- The merge decision both backends take on a submission. -/
inductive MergeDecision where
  | create
  | update
  | noop
deriving DecidableEq, Repr

/-- The branch structure of `DatabaseStorage.updatePlayerScore`:
create when the player is unknown, update on a strictly higher score,
no-op otherwise. -/
def pgDecision (store : List LeaderboardEntry) (data : UpdateScore) : MergeDecision :=
  match store.find? (fun e => e.playerName == data.playerName) with
  | some ex => if data.score > ex.score then MergeDecision.update else MergeDecision.noop
  | none => MergeDecision.create

/-- The branch structure of `MongoStorage.updatePlayerScore`. -/
def mongoDecision (store : List MongoLeaderboardDoc) (data : UpdateScore) : MergeDecision :=
  match store.find? (fun d => d.playerName == data.playerName) with
  | some d => if data.score > d.score then MergeDecision.update else MergeDecision.noop
  | none => MergeDecision.create

/-- A mongo document and a relational row representing the same stored
state: same player, same score, and the same observable country (the
document's country viewed through `toLeaderboardEntry`). -/
def docMatchesEntry (d : MongoLeaderboardDoc) (e : LeaderboardEntry) : Prop :=
  d.playerName = e.playerName ∧ d.score = e.score ∧
    (toLeaderboardEntry d).country = e.country

theorem find?_corresponds (name : String) :
    ∀ (ms : List MongoLeaderboardDoc) (ps : List LeaderboardEntry),
      List.Forall₂ docMatchesEntry ms ps →
      (ms.find? (fun d => d.playerName == name) = none ∧
         ps.find? (fun e => e.playerName == name) = none) ∨
      (∃ d e, ms.find? (fun d => d.playerName == name) = some d ∧
         ps.find? (fun e => e.playerName == name) = some e ∧ docMatchesEntry d e) := by
  intro ms
  induction ms with
  | nil =>
      intro ps h
      cases h
      exact Or.inl ⟨rfl, rfl⟩
  | cons d rest ih =>
      intro ps h
      cases h with
      | cons hde hrest =>
          rename_i e es
          by_cases hname : d.playerName = name
          · refine Or.inr ⟨d, e, ?_, ?_, hde⟩
            · simp [List.find?_cons, hname]
            · have : e.playerName = name := by rw [← hde.1, hname]
              simp [List.find?_cons, this]
          · have hename : ¬ e.playerName = name := by rw [← hde.1]; exact hname
            have h1 : (d.playerName == name) = false := by simp [hname]
            have h2 : (e.playerName == name) = false := by simp [hename]
            rcases ih es hrest with ⟨hm, hp⟩ | ⟨d', e', hm, hp, hde'⟩
            · refine Or.inl ⟨?_, ?_⟩ <;> simp [List.find?_cons, h1, h2, hm, hp]
            · refine Or.inr ⟨d', e', ?_, ?_, hde'⟩ <;>
                simp [List.find?_cons, h1, h2, hm, hp]

theorem jsTruthy_jsOrStr_XX (a : Option String) : jsTruthy (jsOrStr a "XX") = true := by
  cases a with
  | none => rfl
  | some s =>
      unfold jsOrStr
      by_cases h : jsTruthy s = true
      · simp [h]
      · simp only [h, Bool.false_eq_true, if_false]
        decide

theorem updatePlayerScore_found_gt (ps : List LeaderboardEntry) (data : UpdateScore)
    (now freshId : Nat) (e : LeaderboardEntry)
    (hp : ps.find? (fun x => x.playerName == data.playerName) = some e)
    (hgt : data.score > e.score) :
    (updatePlayerScore ps data now freshId).1 = applyScoreUpdate e data now := by
  unfold updatePlayerScore
  rw [hp]
  simp only
  rw [if_pos hgt]

theorem updatePlayerScore_notfound (ps : List LeaderboardEntry) (data : UpdateScore)
    (now freshId : Nat)
    (hp : ps.find? (fun x => x.playerName == data.playerName) = none) :
    (updatePlayerScore ps data now freshId).1 = newPlayerEntry data now freshId := by
  unfold updatePlayerScore
  rw [hp]

theorem mongoUpdatePlayerScore_found_gt (ms : List MongoLeaderboardDoc) (data : UpdateScore)
    (now freshId : Nat) (d : MongoLeaderboardDoc)
    (hm : ms.find? (fun x => x.playerName == data.playerName) = some d)
    (hgt : data.score > d.score) :
    (mongoUpdatePlayerScore ms data now freshId).1 =
      toLeaderboardEntry (mongoApplyScoreUpdate d data now) := by
  unfold mongoUpdatePlayerScore
  rw [hm]
  simp only
  rw [if_pos hgt]

theorem mongoUpdatePlayerScore_found_le (ms : List MongoLeaderboardDoc) (data : UpdateScore)
    (now freshId : Nat) (d : MongoLeaderboardDoc)
    (hm : ms.find? (fun x => x.playerName == data.playerName) = some d)
    (hle : ¬ data.score > d.score) :
    (mongoUpdatePlayerScore ms data now freshId).1 = toLeaderboardEntry d := by
  unfold mongoUpdatePlayerScore
  rw [hm]
  simp only
  rw [if_neg hle]

theorem mongoUpdatePlayerScore_notfound (ms : List MongoLeaderboardDoc) (data : UpdateScore)
    (now freshId : Nat)
    (hm : ms.find? (fun x => x.playerName == data.playerName) = none) :
    (mongoUpdatePlayerScore ms data now freshId).1 =
      toLeaderboardEntry (mongoNewPlayerDoc data now freshId) := by
  unfold mongoUpdatePlayerScore
  rw [hm]

/-- **C9.** On stores representing the same state (pointwise
`docMatchesEntry`), `DatabaseStorage.updatePlayerScore` and
`MongoStorage.updatePlayerScore` take the same decision
(create / update / no-op), and the entries they return agree on
`playerName`, `score` and `country`. -/
theorem storage_refinement_spec (ms : List MongoLeaderboardDoc) (ps : List LeaderboardEntry)
    (data : UpdateScore) (now freshId : Nat)
    (hcorr : List.Forall₂ docMatchesEntry ms ps) :
    mongoDecision ms data = pgDecision ps data ∧
    (mongoUpdatePlayerScore ms data now freshId).1.playerName =
      (updatePlayerScore ps data now freshId).1.playerName ∧
    (mongoUpdatePlayerScore ms data now freshId).1.score =
      (updatePlayerScore ps data now freshId).1.score ∧
    (mongoUpdatePlayerScore ms data now freshId).1.country =
      (updatePlayerScore ps data now freshId).1.country := by
  rcases find?_corresponds data.playerName ms ps hcorr with ⟨hm, hp⟩ | ⟨d, e, hm, hp, hde⟩
  · -- both create
    have h1 := mongoUpdatePlayerScore_notfound ms data now freshId hm
    have h2 := updatePlayerScore_notfound ps data now freshId hp
    rw [h1, h2]
    have hdec : mongoDecision ms data = pgDecision ps data := by
      unfold mongoDecision pgDecision
      rw [hm, hp]
    refine ⟨hdec, rfl, rfl, ?_⟩
    simp [toLeaderboardEntry, mongoNewPlayerDoc, newPlayerEntry, jsTruthy_jsOrStr_XX]
  · obtain ⟨hname, hscore, hcountry⟩ := hde
    by_cases hgt : data.score > e.score
    · -- both update
      have hgtd : data.score > d.score := by rw [hscore]; exact hgt
      have h1 := mongoUpdatePlayerScore_found_gt ms data now freshId d hm hgtd
      have h2 := updatePlayerScore_found_gt ps data now freshId e hp hgt
      rw [h1, h2]
      have hdec : mongoDecision ms data = pgDecision ps data := by
        unfold mongoDecision pgDecision
        rw [hm, hp]
        simp only
        rw [if_pos hgtd, if_pos hgt]
      refine ⟨hdec, ?_, rfl, ?_⟩
      · simpa [toLeaderboardEntry, mongoApplyScoreUpdate, applyScoreUpdate] using hname
      · simp only [toLeaderboardEntry, mongoApplyScoreUpdate, applyScoreUpdate]
        cases hdc : data.country with
        | none =>
            simp only [jsOrStr, jsOrOpt]
            simpa [toLeaderboardEntry] using hcountry
        | some c =>
            by_cases htr : jsTruthy c = true
            · simp [jsOrStr, jsOrOpt, htr]
            · simp only [jsOrStr, jsOrOpt, htr, Bool.false_eq_true, if_false]
              simpa [toLeaderboardEntry] using hcountry
    · -- both no-op
      have hgtd : ¬ data.score > d.score := by rw [hscore]; exact hgt
      have h1 := mongoUpdatePlayerScore_found_le ms data now freshId d hm hgtd
      have h2 := updatePlayerScore_dominated ps data now freshId e hp (by omega)
      rw [h1, h2]
      have hdec : mongoDecision ms data = pgDecision ps data := by
        unfold mongoDecision pgDecision
        rw [hm, hp]
        simp only
        rw [if_neg hgtd, if_neg hgt]
      refine ⟨hdec, ?_, ?_, ?_⟩
      · simpa [toLeaderboardEntry] using hname
      · simpa [toLeaderboardEntry] using hscore
      · simpa [toLeaderboardEntry] using hcountry

/-- Closed instance of `storage_refinement_spec`: on matching one-entry
stores, a higher-scoring submission yields the same decision and the
same resulting player, score and country in both backends. -/
theorem storage_refinement_spec_witness :
    mongoDecision [⟨5, "alice", 10, "US", 0, 0⟩] ⟨"alice", 25, some "CA"⟩ =
      pgDecision [⟨1, "alice", 10, some "US", 0, 0⟩] ⟨"alice", 25, some "CA"⟩ ∧
    (mongoUpdatePlayerScore [⟨5, "alice", 10, "US", 0, 0⟩] ⟨"alice", 25, some "CA"⟩ 7 9).1.country =
      (updatePlayerScore [⟨1, "alice", 10, some "US", 0, 0⟩] ⟨"alice", 25, some "CA"⟩ 7 9).1.country := by
  have h := storage_refinement_spec [⟨5, "alice", 10, "US", 0, 0⟩]
    [⟨1, "alice", 10, some "US", 0, 0⟩] ⟨"alice", 25, some "CA"⟩ 7 9
    (List.Forall₂.cons ⟨rfl, rfl, by decide⟩ List.Forall₂.nil)
  exact ⟨h.1, h.2.2.2⟩

/-! ## Concurrent submissions for one player

`updatePlayerScore` (both backends) suspends twice: at the lookup
(`findOne` / `select`) and at the write (`updateOne` / `update … set`).
For one existing player, an in-flight call is modelled by its submitted
score and the lookup result it has cached so far; the shared state is the
player's stored score. The write is exactly the source's: the comparison
uses the cached lookup value, and the write itself sets the score
unconditionally. -/

/-- One in-flight `updatePlayerScore` call for the player: the submitted
score and, once its lookup step ran, the stored score it observed. -/
structure SubmitOp where
  score : Nat
  seen : Option Nat
deriving DecidableEq, Repr

/-- An op that has not yet run its lookup step. -/
def initOp (score : Nat) : SubmitOp := { score := score, seen := none }

/-- One step of an in-flight call: the lookup step caches the current
stored score; the write step re-checks `data.score > existingPlayer.score`
against the CACHED value and, if it passes, overwrites the stored score
(the `update … set { score: data.score }` is unconditional). -/
def opStep (stored : Nat) (op : SubmitOp) : Nat × SubmitOp :=
  match op.seen with
  | none => (stored, { op with seen := some stored })
  | some seenScore => (if op.score > seenScore then op.score else stored, op)

/-- Run an interleaving of two in-flight calls: `true` steps the first
op, `false` the second. A schedule is valid when each op is stepped
exactly twice (lookup then write). -/
def runRace (stored : Nat) (op1 op2 : SubmitOp) : List Bool → Nat
  | [] => stored
  | b :: rest =>
      if b then
        runRace (opStep stored op1).1 (opStep stored op1).2 op2 rest
      else
        runRace (opStep stored op2).1 op1 (opStep stored op2).2 rest

/-- **C4.** The claim — two racing `updatePlayerScore` calls whose
lookup and write steps may interleave always leave the higher score —
fails on the code: with a stored score of 50 and submissions 80 and 95,
the interleaving lookup₈₀, lookup₉₅, write₉₅, write₈₀ is a valid
schedule (each op steps exactly twice) yet leaves 80 stored, not 95.
Only the two fully sequential schedules leave 95. -/
theorem concurrent_submissions_lost_update :
    (runRace 50 (initOp 80) (initOp 95) [true, false, false, true] = 80 ∧
      (List.count true [true, false, false, true] = 2 ∧
        List.count false [true, false, false, true] = 2) ∧
      ¬ runRace 50 (initOp 80) (initOp 95) [true, false, false, true] = 95) ∧
    runRace 50 (initOp 80) (initOp 95) [true, true, false, false] = 95 ∧
    runRace 50 (initOp 80) (initOp 95) [false, false, true, true] = 95 := by
  decide

end HKClick
